import Mathlib

/-!
Verification of the skip-list container in src/src/SkipList.h.

The container is modelled at two granularities.

The main model (structure SkipList) represents the node graph by its
per-level value sequences: levels[0] is level 1 (the bottom level that
iteration traverses), levels[i] the level i+1, each list holding the data
of the real nodes between the head and tail sentinels in left-to-right
order.  current_max_level equals levels.length on every path the source
completes, msize mirrors the _size member, maxLvl mirrors MAX_LVL
(DEFAULT_MAX_LVL = 16).  The horizontal walk
`while (cur->right != tail && comp(cur->right->data, key)) cur = cur->right`
becomes takeWhile/dropWhile on the level's list; starting the walk at the
node reached by the descent from the level above returns the same
predecessor as scanning the level from its head whenever the levels are
ordered, which is the regime of every claim proved against this model.
The comparator Compare = std::less<> is modelled by the strict order of a
LinearOrder.  The randomized level of SkipList::insert is passed in as an
explicit argument (the value random_level would have produced).

A second, pointer-level model (heap of SkipNodeH records addressed by
naturals) is used for SkipList::clear and the range overload of erase,
whose behaviour depends on the pointer graph itself: the loop of clear
never reassigns its control variable, which the list-level model cannot
express.  Loops over the heap take explicit fuel; a result of none means
the fuel was exhausted on every supplied amount, i.e. the loop does not
terminate.
-/

/-- Outcomes thrown by the source: std::out_of_range from
erase(iterator) on end(), std::invalid_argument from erase(iterator) on an
iterator that fails validate_iterator. -/
inductive ErrK : Type
| outOfRange : ErrK
| invalidArgument : ErrK
deriving DecidableEq

/-- A bottom-level iterator as the source hands it out: a pointer to the
i-th real node of level 1 (node i), the level-1 tail sentinel (endIt), or
a pointer that no longer denotes a live node of this container (dead). -/
inductive IterM : Type
| node : Nat → IterM
| endIt : IterM
| dead : IterM
deriving DecidableEq

/-- The container state of SkipList<T>: per-level value sequences
(bottom level first), the _size member, and MAX_LVL. -/
structure SkipList (α : Type) where
  levels : List (List α)
  msize : Nat
  maxLvl : Nat
deriving DecidableEq

/-- The state built by the default constructor: one level whose head
sentinel points directly at its tail sentinel, _size = 0,
MAX_LVL = DEFAULT_MAX_LVL = 16. -/
def emptySkipList (α : Type) : SkipList α := ⟨[[]], 0, 16⟩

namespace SkipList

variable {α : Type} [LinearOrder α]

/-- The element sequence seen by iterating from begin() to end(): begin()
descends from head to level 1 and starts at the head sentinel's right
neighbour, operator++ follows right, end() is the level-1 tail sentinel.
Hence iteration yields exactly the bottom level, left to right. -/
def toList (s : SkipList α) : List α := s.levels.getD 0 []

/-- SkipList::size: returns the _size member. -/
def size (s : SkipList α) : Nat := s.msize

/-- SkipList::empty: getHeadAtLevel(1)->right == getTailAtLevel(1), i.e.
level 1 holds no real node. -/
def emptyB (s : SkipList α) : Bool := (s.levels.getD 0 []).isEmpty

/-- One level's step of findNode: after the horizontal walk the candidate
is the first node whose data is not less than the key; the source then
tests `!comp(key, cand) && !comp(cand, key)` and returns the node on
success. -/
def checkLevel (key : α) (lvl : List α) : Option α :=
  match (lvl.dropWhile (fun x => x < key)).head? with
  | some x => if ¬ key < x ∧ ¬ x < key then some x else none
  | none => none

/-- SkipList::findNode's descent, taken over the levels listed from the
top downwards; on a hit it reports the value together with the number of
levels below the hit (which is the bottom-first index of that level). -/
def findFrom (key : α) : List (List α) → Option (Nat × α)
  | [] => none
  | lvl :: below =>
    match checkLevel key lvl with
    | some x => some (below.length, x)
    | none => findFrom key below

/-- SkipList::findNode: start at the top level and descend. -/
def findNode (key : α) (s : SkipList α) : Option (Nat × α) :=
  findFrom key s.levels.reverse

/-- SkipList::contains: findNode(value) != nullptr. -/
def contains (v : α) (s : SkipList α) : Bool := (findNode v s).isSome

/-- SkipList::findLowerNode at level 1: walk level 1 from the head
sentinel to the first node not less than data; the guard
`!current || !current->right` returns nullptr exactly when the level has
no real node. -/
def findLowerNode (v : α) (lvl : List α) : Option α :=
  match lvl with
  | [] => none
  | _ :: _ => (lvl.dropWhile (fun x => x < v)).head?

/-- Splicing one new node to the right of update[l], the last node of the
level strictly preceding the value. -/
def insertLevel (v : α) (lvl : List α) : List α :=
  lvl.takeWhile (fun x => x < v) ++ v :: lvl.dropWhile (fun x => x < v)

/-- The tower-building loop of SkipList::insert: one node per level from
level 1 up to the drawn level, each spliced after its update node. -/
def spliceLevels (v : α) : Nat → List (List α) → List (List α)
  | 0, ls => ls
  | _ + 1, [] => []
  | n + 1, l :: rest => insertLevel v l :: spliceLevels v n rest

/-- SkipList::insert with the outcome of random_level passed explicitly.
Returns the new state, the iterator of the returned pair (level index and
value of the node it points at), and the inserted flag.  An existing
equal element short-circuits before any mutation; otherwise the ladder is
grown to the drawn level with fresh sentinel pairs, the tower is spliced
level by level, and _size is incremented. -/
def insert (v : α) (level : Nat) (s : SkipList α) :
    SkipList α × Option (Nat × α) × Bool :=
  if contains v s = true then (s, findNode v s, false)
  else
    let grown :=
      if s.levels.length < level then
        s.levels ++ List.replicate (level - s.levels.length) []
      else s.levels
    let spliced := spliceLevels v level grown
    (⟨spliced, s.msize + 1, s.maxLvl⟩,
      (findLowerNode v (spliced.getD 0 [])).map (fun x => (0, x)), true)

/-- Unlinking and destroying the first node holding the value: the list
analogue of detaching one node of the tower at its level. -/
def eraseFirst [DecidableEq α] (v : α) : List α → List α
  | [] => []
  | x :: t => if x = v then t else x :: eraseFirst v t

/-- The down-chain walk of SkipList::eraseNode applied to the lowest
count levels: the tower found at bottom-first index i is detached at the
levels i, i-1, ..., 0 that its down pointers reach. -/
def eraseLevels (v : α) : Nat → List (List α) → List (List α)
  | 0, ls => ls
  | _ + 1, [] => []
  | n + 1, l :: rest => eraseFirst v l :: eraseLevels v n rest

/-- The down pointers of a tower found at bottom-first index count-1 are
live exactly when the value is present at each of the count lowest
levels; insert builds towers that way and eraseNode destroys them that
way, so when this fails the source would follow a pointer to freed
memory. -/
def towerIntact (v : α) : Nat → List (List α) → Bool
  | 0, _ => true
  | _ + 1, [] => false
  | n + 1, l :: rest => decide (v ∈ l) && towerIntact v n rest

/-- The loop of SkipList::trimEmptyLevels over the levels listed from the
top downwards: while more than one level remains and the top level's head
sentinel points at its tail sentinel, delete the top sentinel pair and
decrement current_max_level. -/
def trimLoop : List (List α) → List (List α)
  | [] => []
  | [l] => [l]
  | l :: l2 :: rest => if l.isEmpty then trimLoop (l2 :: rest) else l :: l2 :: rest

/-- SkipList::trimEmptyLevels on bottom-first levels. -/
def trimEmptyLevels (ls : List (List α)) : List (List α) :=
  (trimLoop ls.reverse).reverse

/-- SkipList::erase(const K&): findNode locates the topmost node of the
value's tower; on a hit eraseNode detaches the tower at every level its
down pointers reach, decrements _size and trims empty top levels.  A
result of none marks the undefined behaviour of following a dangling down
pointer (a tower whose lower part was already destroyed). -/
def erase [DecidableEq α] (v : α) (s : SkipList α) : Option (Bool × SkipList α) :=
  match findNode v s with
  | none => some (false, s)
  | some (i, _) =>
    if towerIntact v (i + 1) s.levels then
      some (true,
        ⟨trimEmptyLevels (eraseLevels v (i + 1) s.levels), s.msize - 1, s.maxLvl⟩)
    else none

/-- SkipList::validate_iterator: scan from begin() to end() and compare;
only a pointer to a live level-1 node is found. -/
def validate_iterator (pos : IterM) (s : SkipList α) : Bool :=
  match pos with
  | IterM.node i => decide (i < (s.levels.getD 0 []).length)
  | _ => false

/-- Replacing the bottom level after eraseNode detached a node there. -/
def replaceBottom (b : List α) : List (List α) → List (List α)
  | [] => []
  | _ :: rest => b :: rest

/-- SkipList::erase(iterator): end() is rejected with std::out_of_range,
an iterator failing validate_iterator with std::invalid_argument, both
before any mutation.  Otherwise pos is incremented, then eraseNode runs
on the level-1 node, whose down pointer is null, so only the level-1 node
is detached and destroyed; _size is decremented and empty top levels are
trimmed. -/
def eraseIter [DecidableEq α] (pos : IterM) (s : SkipList α) :
    Except ErrK (IterM × SkipList α) :=
  if pos = IterM.endIt then Except.error ErrK.outOfRange
  else if validate_iterator pos s = false then Except.error ErrK.invalidArgument
  else
    match pos with
    | IterM.node i =>
      let bot := s.levels.getD 0 []
      let nxt := if i + 1 < bot.length then IterM.node i else IterM.endIt
      Except.ok (nxt,
        ⟨trimEmptyLevels (replaceBottom (bot.eraseIdx i) s.levels),
          s.msize - 1, s.maxLvl⟩)
    | _ => Except.error ErrK.invalidArgument

/-- The descent of SkipList::lower_bound, over the levels listed from the
top downwards; at level 1 the iterator node->right is returned, here as
the suffix of level 1 that starts at that node (the empty suffix is the
tail sentinel, i.e. end()).  On ordered levels the walk restarted from a
level's head reaches the same predecessor as the walk resumed from the
node the descent arrived at. -/
def lbDescend (key : α) : List (List α) → List α
  | [] => []
  | [lvl] => lvl.dropWhile (fun x => x < key)
  | _ :: l2 :: rest => lbDescend key (l2 :: rest)

/-- SkipList::lower_bound as the iterator's view of level 1: the suffix
starting at the returned node. -/
def lower_bound (key : α) (s : SkipList α) : List α :=
  lbDescend key s.levels.reverse

/-- SkipList::upper_bound: take lower_bound; if it is not end() and the
key is not less than the element there, advance once. -/
def upper_bound (key : α) (s : SkipList α) : List α :=
  match lower_bound key s with
  | [] => []
  | x :: t => if ¬ key < x then t else x :: t

/-- The first element of the iteration sequence that is not less than the
key, in the words of the specification of lower_bound. -/
def specLowerBound (key : α) (l : List α) : Option α :=
  l.find? (fun x => key ≤ x)

/-- The first element of the iteration sequence strictly greater than the
key, in the words of the specification of upper_bound. -/
def specUpperBound (key : α) (l : List α) : Option α :=
  l.find? (fun x => key < x)

/-- Strict left-to-right ordering of one level, as the comparator sees
it. -/
def sortedLt : List α → Bool
  | [] => true
  | [_] => true
  | a :: b :: t => decide (a < b) && sortedLt (b :: t)

/-- Invariant 2 of the source header: every element present at a level is
present at the level below it (the tower reaches down), stated on
adjacent levels bottom-first. -/
def downClosed : List (List α) → Bool
  | [] => true
  | [_] => true
  | lo :: hi :: rest => hi.all (fun v => decide (v ∈ lo)) && downClosed (hi :: rest)

/-- The structural invariants the source maintains (header comment of
SkipList.h and spec section 3): at least level 1 exists, every level is
strictly ordered, every level is contained in the one below, and _size
counts the level-1 nodes. -/
def WF (s : SkipList α) : Prop :=
  s.levels ≠ [] ∧ (∀ lvl ∈ s.levels, sortedLt lvl = true) ∧
    downClosed s.levels = true ∧ s.msize = (s.levels.getD 0 []).length

instance (s : SkipList α) : Decidable (WF s) := by
  unfold WF; infer_instance

end SkipList

/-! The level generator.  random_level draws from a function-local static
mt19937 through bernoulli_distribution(0.5); the statics are shared by
every instance of the same SkipList instantiation.  The generator is
modelled as a fixed stream of bernoulli outcomes g together with the
cursor of the next outcome to consume; the cursor is the shared mutable
state of the statics. -/

/-- The loop of SkipList::random_level: level starts at 1 and, while the
drawn outcome is true and level < MAX_LVL, is incremented; every
evaluation of the loop condition consumes one outcome.  Returns the level
and the advanced cursor.  The fuel only bounds the recursion; maxLvl fuel
is enough for the loop to finish on its own. -/
def rlLoop (g : Nat → Bool) (maxLvl : Nat) : Nat → Nat → Nat → Nat × Nat
  | 0, level, pos => (level, pos)
  | f + 1, level, pos =>
    if g pos = true ∧ level < maxLvl then rlLoop g maxLvl f (level + 1) (pos + 1)
    else (level, pos + 1)

/-- SkipList::random_level against the shared stream: draw a level in
[1, maxLvl] and advance the shared cursor. -/
def random_level (g : Nat → Bool) (maxLvl : Nat) (pos : Nat) : Nat × Nat :=
  rlLoop g maxLvl maxLvl 1 pos

/-- One insert as a caller runs it: the level comes from random_level,
which reads and advances the cursor shared by all containers of the
instantiation. -/
def insertShared {α : Type} [LinearOrder α] (v : α) (s : SkipList α)
    (g : Nat → Bool) (pos : Nat) : SkipList α × Nat :=
  let drawn := random_level g s.maxLvl pos
  ((SkipList.insert v drawn.1 s).1, drawn.2)

/-! Insert under allocation failure.  create_node either returns a fresh
node or throws std::bad_alloc; the budget counts the allocations that
still succeed, and the error value carries the levels and _size the
container holds at the moment of the throw. -/

/-- The ladder-growing loop of insert under an allocation budget: each
new level allocates its head sentinel and then its tail sentinel before
linking either, so a level is added only when two allocations succeed;
current_max_level is assigned only after the whole loop. -/
def growLoop {α : Type} (budget : Nat) : Nat → List (List α) →
    Except (List (List α)) (List (List α) × Nat)
  | 0, ls => Except.ok (ls, budget)
  | n + 1, ls =>
    if budget ≤ 1 then Except.error ls
    else growLoop (budget - 2) n (ls ++ [[]])

/-- The tower-splicing loop of insert under an allocation budget: the
node of each level is allocated just before it is spliced, so a failure
at level l leaves the nodes of levels below l linked and visible. -/
def spliceLoop {α : Type} [LinearOrder α] (v : α) (budget : Nat) :
    Nat → List (List α) → Except (List (List α)) (List (List α))
  | 0, ls => Except.ok ls
  | n + 1, ls =>
    if budget = 0 then Except.error ls
    else
      match ls with
      | [] => Except.ok []
      | l :: rest =>
        match spliceLoop v (budget - 1) n rest with
        | Except.ok rest2 => Except.ok (SkipList.insertLevel v l :: rest2)
        | Except.error rest2 => Except.error (SkipList.insertLevel v l :: rest2)

/-- SkipList::insert under an allocation budget.  The duplicate check
allocates nothing; then the ladder grows (two allocations per new level),
then the tower splices bottom-up (one allocation per level); _size is
incremented only after the whole tower is spliced.  The error value is
the pair (levels, _size) left behind by the throw. -/
def insertAlloc {α : Type} [LinearOrder α] (budget : Nat) (v : α) (level : Nat)
    (s : SkipList α) : Except (List (List α) × Nat) (SkipList α × Bool) :=
  if SkipList.contains v s = true then Except.ok (s, false)
  else
    match growLoop budget (level - s.levels.length) s.levels with
    | Except.error ls => Except.error (ls, s.msize)
    | Except.ok (grown, b1) =>
      match spliceLoop v b1 level grown with
      | Except.error ls => Except.error (ls, s.msize)
      | Except.ok spliced =>
        Except.ok (⟨spliced, s.msize + 1, s.maxLvl⟩, true)

/-! The pointer-level model used for SkipList::clear and for the range
overload of erase.  A heap is an association list from addresses to
nodes; delete_node removes the address, and reading a field of an address
no longer in the heap (freed memory, undefined behaviour in the source)
is modelled as stopping the walk. -/

/-- The pointer fields of SkipNode; the data plays no role in the loops
modelled here. -/
structure SkipNodeH where
  left : Option Nat := none
  right : Option Nat := none
  down : Option Nat := none
deriving DecidableEq

/-- A heap of allocated nodes. -/
def HeapH : Type := List (Nat × SkipNodeH)

instance : DecidableEq HeapH := by
  unfold HeapH; infer_instance

/-- Reading the node at an address; none for freed or never-allocated
memory. -/
def hLookup (h : HeapH) (a : Nat) : Option SkipNodeH :=
  (h.find? (fun p => p.1 == a)).map (fun p => p.2)

/-- delete_node: deallocate the node at the address. -/
def hFree (h : HeapH) (a : Nat) : HeapH :=
  h.filter (fun p => p.1 != a)

/-- The inner loop of SkipList::clear: from current_node = current_level,
save next_node = current_node->right, delete current_node, continue at
next_node until it is null.  Reading right out of freed memory is
modelled as stopping. -/
def clearInner (h : HeapH) : Nat → Option Nat → HeapH
  | 0, _ => h
  | _ + 1, none => h
  | f + 1, some a =>
    match hLookup h a with
    | none => h
    | some nd => clearInner (hFree h a) f nd.right

/-- The outer loop of SkipList::clear: while current_level is not null,
run the inner deletion pass.  The body never reassigns current_level (the
step current_level = current_level->down present in the destructor is
absent from clear), so the guard keeps its initial value; the fuel counts
outer iterations and none reports that the given fuel was exhausted. -/
def clearOuter : Nat → HeapH → Option Nat → Option HeapH
  | 0, _, _ => none
  | _ + 1, h, none => some h
  | f + 1, h, some a => clearOuter f (clearInner h (h.length + 1) (some a)) (some a)

/-- The node graph the default constructor builds: head sentinel at
address 0 pointing right at the tail sentinel at address 1, no lower
level. -/
def ctorHeap : HeapH :=
  [(0, { right := some 1 }), (1, { left := some 0 })]

/-- SkipList::clear run on a container whose head sentinel sits at the
given address: the outer loop starts from current_level = head, and the
resets of head, tail, current_max_level and _size follow only after it
exits. -/
def clearRun (fuel : Nat) (h : HeapH) (headA : Nat) : Option HeapH :=
  clearOuter fuel h (some headA)

/-- begin()'s descent: follow down pointers to level 1. -/
def walkDown (h : HeapH) : Nat → Nat → Option Nat
  | 0, _ => none
  | f + 1, a =>
    match hLookup h a with
    | none => none
    | some nd =>
      match nd.down with
      | none => some a
      | some d => walkDown h f d

/-- SkipList::begin at the heap level: descend from head to level 1 and
take the right neighbour of its head sentinel. -/
def beginH (h : HeapH) (headA : Nat) : Option Nat :=
  (walkDown h (h.length + 1) headA).bind (fun b => (hLookup h b).bind (fun nd => nd.right))

/-- SkipList::end at the heap level: descend from tail to level 1. -/
def endH (h : HeapH) (tailA : Nat) : Option Nat :=
  walkDown h (h.length + 1) tailA

/-- Detaching one node from its level: the left neighbour's right and the
right neighbour's left are rewired past it. -/
def hUnlink (h : HeapH) (a : Nat) : HeapH :=
  match hLookup h a with
  | none => h
  | some nd =>
    let h1 := match nd.left with
      | some la => h.map (fun p => if p.1 == la then (p.1, { p.2 with right := nd.right }) else p)
      | none => h
    let h2 := match nd.right with
      | some ra => h1.map (fun p => if p.1 == ra then (p.1, { p.2 with left := nd.left }) else p)
      | none => h1
    hFree h2 a

/-- SkipList::eraseNode at the heap level: walk the tower downwards,
detaching and freeing each node; a dangling down pointer (freed memory)
stops the walk. -/
def eraseNodeH : Nat → HeapH → Option Nat → HeapH
  | 0, h, _ => h
  | _ + 1, h, none => h
  | f + 1, h, some a =>
    match hLookup h a with
    | none => h
    | some nd => eraseNodeH f (hUnlink h a) nd.down

/-- validate_iterator at the heap level: scan right from begin() looking
for the iterator's node, stopping at end(). -/
def scanFor (h : HeapH) : Nat → Option Nat → Option Nat → Option Nat → Bool
  | 0, _, _, _ => false
  | f + 1, cur, target, stop =>
    if cur = stop then false
    else if cur = target then true
    else scanFor h f (cur.bind (fun a => (hLookup h a).bind (fun nd => nd.right))) target stop

/-- SkipList::erase(iterator) at the heap level: reject end() with
out_of_range and an unvalidated iterator with invalid_argument, else
advance past the node and run eraseNode on it. -/
def eraseIterH (fuel : Nat) (h : HeapH) (headA tailA : Nat) (pos : Option Nat) :
    Except ErrK (HeapH × Option Nat) :=
  if pos = endH h tailA then Except.error ErrK.outOfRange
  else if scanFor h fuel (beginH h headA) pos (endH h tailA) = false then
    Except.error ErrK.invalidArgument
  else
    match pos with
    | none => Except.error ErrK.invalidArgument
    | some a =>
      let nxt := (hLookup h a).bind (fun nd => nd.right)
      Except.ok (eraseNodeH fuel h (some a), nxt)

/-- The while loop of the range overload of erase: while first != last,
first = erase(first).  none reports exhausted fuel, an error value a
thrown exception. -/
def rangeLoopH (headA tailA : Nat) :
    Nat → HeapH → Option Nat → Option Nat → Option (Except ErrK (HeapH × Option Nat))
  | 0, _, _, _ => none
  | f + 1, h, first, last =>
    if first = last then some (Except.ok (h, first))
    else
      match eraseIterH (h.length + 1) h headA tailA first with
      | Except.error e => some (Except.error e)
      | Except.ok (h2, nxt) => rangeLoopH headA tailA f h2 nxt last

/-- SkipList::erase(const_iterator, const_iterator): when the range spans
the whole container (first == begin() and last == end()) it calls clear()
first, then runs the erase loop on the now-stale iterators. -/
def eraseRangeH (fuel : Nat) (h : HeapH) (headA tailA : Nat)
    (first last : Option Nat) : Option (Except ErrK (HeapH × Option Nat)) :=
  if first = beginH h headA ∧ last = endH h tailA then
    match clearOuter fuel h (some headA) with
    | none => none
    | some h2 => rangeLoopH headA tailA fuel h2 first last
  else rangeLoopH headA tailA fuel h first last

/-! Reachability by the public mutating operations that return: insert
(with any level random_level can produce), erase by value, and erase by
iterator.  clear and the whole-container range erase never return (proved
below), and copy, move and swap only transport whole states. -/

/-- States reachable from a default-constructed container. -/
inductive ReachableSkip {α : Type} [LinearOrder α] : SkipList α → Prop
  | init : ReachableSkip (emptySkipList α)
  | insertStep (s : SkipList α) (v : α) (level : Nat) :
      ReachableSkip s → 1 ≤ level → level ≤ s.maxLvl →
      ReachableSkip (SkipList.insert v level s).1
  | eraseStep (s s' : SkipList α) (v : α) (b : Bool) :
      ReachableSkip s → SkipList.erase v s = some (b, s') → ReachableSkip s'
  | eraseIterStep (s s' : SkipList α) (pos nxt : IterM) :
      ReachableSkip s → SkipList.eraseIter pos s = Except.ok (nxt, s') →
      ReachableSkip s'

/-! Helper lemmas. -/

theorem clearOuter_some_eq_none : ∀ (fuel : Nat) (h : HeapH) (a : Nat),
    clearOuter fuel h (some a) = none := by
  intro fuel
  induction fuel with
  | zero => intro h a; rfl
  | succ f ih => intro h a; exact ih _ a

theorem checkLevel_some {α : Type} [LinearOrder α] {key x : α} {lvl : List α}
    (h : SkipList.checkLevel key lvl = some x) : x = key ∧ x ∈ lvl := by
  unfold SkipList.checkLevel at h
  split at h
  case h_2 => exact absurd h (by simp)
  case h_1 y hh =>
    split at h
    case isFalse => exact absurd h (by simp)
    case isTrue hc =>
      have hxy : x = y := by simpa using h.symm
      subst hxy
      constructor
      · exact le_antisymm (not_lt.mp hc.1) (not_lt.mp hc.2)
      · have hmem : x ∈ lvl.dropWhile (fun y => decide (y < key)) := by
          cases hd : lvl.dropWhile (fun y => decide (y < key)) with
          | nil => rw [hd] at hh; exact absurd hh (by simp)
          | cons z t =>
            rw [hd] at hh
            simp at hh
            rw [hh]; exact List.mem_cons_self x t
        exact (List.dropWhile_sublist _).mem hmem

theorem findFrom_some_decomp {α : Type} [LinearOrder α] {key x : α} {i : Nat}
    {ls : List (List α)} (h : SkipList.findFrom key ls = some (i, x)) :
    ∃ pre lvl suf, ls = pre ++ lvl :: suf ∧ suf.length = i ∧
      SkipList.checkLevel key lvl = some x ∧
      ∀ l' ∈ pre, SkipList.checkLevel key l' = none := by
  induction ls with
  | nil => exact absurd h (by simp [SkipList.findFrom])
  | cons lvl below ih =>
    unfold SkipList.findFrom at h
    cases hc : SkipList.checkLevel key lvl with
    | some y =>
      rw [hc] at h
      simp at h
      exact ⟨[], lvl, below, by simp, h.1, h.2 ▸ hc, by simp⟩
    | none =>
      rw [hc] at h
      obtain ⟨pre, lvl2, suf, hls, hlen, hck, hpre⟩ := ih h
      refine ⟨lvl :: pre, lvl2, suf, by simp [hls], hlen, hck, ?_⟩
      intro l' hl'
      rcases List.mem_cons.mp hl' with h1 | h2
      · rw [h1]; exact hc
      · exact hpre l' h2

theorem findFrom_none {α : Type} [LinearOrder α] {key : α} {ls : List (List α)}
    (h : SkipList.findFrom key ls = none) :
    ∀ lvl ∈ ls, SkipList.checkLevel key lvl = none := by
  induction ls with
  | nil => intro lvl hm; exact absurd hm (by simp)
  | cons l below ih =>
    unfold SkipList.findFrom at h
    cases hc : SkipList.checkLevel key l with
    | some y => rw [hc] at h; exact absurd h (by simp)
    | none =>
      rw [hc] at h
      intro lvl hm
      rcases List.mem_cons.mp hm with h1 | h2
      · rw [h1]; exact hc
      · exact ih h lvl h2

theorem sortedLt_tail {α : Type} [LinearOrder α] {a : α} {t : List α}
    (h : SkipList.sortedLt (a :: t) = true) : SkipList.sortedLt t = true := by
  cases t with
  | nil => rfl
  | cons b t' =>
    unfold SkipList.sortedLt at h
    simp only [Bool.and_eq_true] at h
    exact h.2

theorem sortedLt_head_lt {α : Type} [LinearOrder α] {a x : α} {t : List α}
    (h : SkipList.sortedLt (a :: t) = true) (hx : x ∈ t) : a < x := by
  induction t generalizing a with
  | nil => exact absurd hx (by simp)
  | cons b t' ih =>
    have hab : a < b := by
      unfold SkipList.sortedLt at h
      simp only [Bool.and_eq_true, decide_eq_true_eq] at h
      exact h.1
    rcases List.mem_cons.mp hx with h1 | h2
    · rw [h1]; exact hab
    · exact lt_trans hab (ih (sortedLt_tail h) h2)

theorem checkLevel_mem {α : Type} [LinearOrder α] {v : α} {lvl : List α}
    (hs : SkipList.sortedLt lvl = true) (hv : v ∈ lvl) :
    SkipList.checkLevel v lvl = some v := by
  unfold SkipList.checkLevel
  have hh : (lvl.dropWhile (fun y => y < v)).head? = some v := by
    induction lvl with
    | nil => exact absurd hv (by simp)
    | cons a t ih =>
      by_cases ha : a < v
      · have hvt : v ∈ t := by
          rcases List.mem_cons.mp hv with h1 | h2
          · exact absurd h1 (by rintro rfl; exact lt_irrefl _ ha)
          · exact h2
        rw [List.dropWhile_cons_of_pos (by simpa using ha)]
        exact ih (sortedLt_tail hs) hvt
      · rw [List.dropWhile_cons_of_neg (by simpa using ha)]
        have hav : a = v := by
          rcases List.mem_cons.mp hv with h1 | h2
          · exact h1.symm
          · exact absurd (sortedLt_head_lt hs h2) ha
        simp [hav]
  rw [hh]
  simp

theorem checkLevel_not_mem {α : Type} [LinearOrder α] {v : α} {lvl : List α}
    (hs : SkipList.sortedLt lvl = true)
    (hc : SkipList.checkLevel v lvl = none) : v ∉ lvl := by
  intro hv
  rw [checkLevel_mem hs hv] at hc
  exact absurd hc (by simp)

theorem getD_zero_eq_head {α : Type} (ls : List (List α)) :
    ls.getD 0 [] = ls.head?.getD [] := by
  cases ls <;> rfl

theorem getD_append_cons {α : Type} (A : List (List α)) (b : List α)
    (C : List (List α)) : (A ++ b :: C).getD A.length [] = b := by
  induction A with
  | nil => rfl
  | cons a A' ih => simpa using ih

theorem downClosed_tail {α : Type} [LinearOrder α] {l : List α}
    {rest : List (List α)} (h : SkipList.downClosed (l :: rest) = true) :
    SkipList.downClosed rest = true := by
  cases rest with
  | nil => rfl
  | cons l2 rest' =>
    unfold SkipList.downClosed at h
    simp only [Bool.and_eq_true] at h
    exact h.2

theorem downClosed_step {α : Type} [LinearOrder α] {v : α} {ls : List (List α)}
    (h : SkipList.downClosed ls = true) (i : Nat)
    (hv : v ∈ ls.getD (i + 1) []) : v ∈ ls.getD i [] := by
  induction ls generalizing i with
  | nil => exact absurd hv (by simp)
  | cons lo rest ih =>
    cases rest with
    | nil =>
      exfalso
      have hnil : ∀ n, ([lo] : List (List α)).getD (n + 1) [] = [] := by
        intro n; cases n <;> rfl
      rw [hnil i] at hv
      exact absurd hv (by simp)
    | cons hi rest' =>
      cases i with
      | zero =>
        unfold SkipList.downClosed at h
        simp only [Bool.and_eq_true, List.all_eq_true] at h
        have hv0 : v ∈ hi := by simpa using hv
        simpa using h.1 v hv0
      | succ j =>
        have := ih (downClosed_tail h) j (by simpa using hv)
        simpa using this

theorem downClosed_to_bottom {α : Type} [LinearOrder α] {v : α}
    {ls : List (List α)} (h : SkipList.downClosed ls = true) {i : Nat}
    (hv : v ∈ ls.getD i []) : ∀ j, j ≤ i → v ∈ ls.getD j [] := by
  induction i with
  | zero =>
    intro j hj
    rw [Nat.le_zero.mp hj]
    exact hv
  | succ k ih =>
    intro j hj
    rcases Nat.lt_or_ge j (k + 1) with h1 | h2
    · exact ih (downClosed_step h k hv) j (Nat.lt_succ_iff.mp h1)
    · have : j = k + 1 := le_antisymm hj h2
      rw [this]; exact hv

theorem towerIntact_of_all {α : Type} [LinearOrder α] {v : α}
    {ls : List (List α)} : ∀ n, n < ls.length →
    (∀ j, j ≤ n → v ∈ ls.getD j []) → SkipList.towerIntact v (n + 1) ls = true := by
  induction ls with
  | nil => intro n hn; exact absurd hn (by simp)
  | cons l rest ih =>
    intro n hn hall
    unfold SkipList.towerIntact
    simp only [Bool.and_eq_true, decide_eq_true_eq]
    refine ⟨by simpa using hall 0 (Nat.zero_le n), ?_⟩
    cases n with
    | zero => rfl
    | succ m =>
      refine ih m (by simpa using hn) ?_
      intro j hj
      simpa using hall (j + 1) (by omega)

theorem towerIntact_head {α : Type} [LinearOrder α] {v : α} {n : Nat}
    {l : List α} {rest : List (List α)}
    (h : SkipList.towerIntact v (n + 1) (l :: rest) = true) :
    v ∈ l ∧ SkipList.towerIntact v n rest = true := by
  unfold SkipList.towerIntact at h
  simp only [Bool.and_eq_true, decide_eq_true_eq] at h
  exact h

theorem eraseFirst_length {α : Type} [LinearOrder α] {v : α} {l : List α}
    (hv : v ∈ l) : (SkipList.eraseFirst v l).length + 1 = l.length := by
  induction l with
  | nil => exact absurd hv (by simp)
  | cons x t ih =>
    unfold SkipList.eraseFirst
    by_cases hx : x = v
    · rw [if_pos hx]; rfl
    · rw [if_neg hx]
      have hvt : v ∈ t := by
        rcases List.mem_cons.mp hv with h1 | h2
        · exact absurd h1.symm hx
        · exact h2
      simpa using ih hvt

theorem eraseFirst_not_mem {α : Type} [LinearOrder α] {v : α} {l : List α}
    (hs : SkipList.sortedLt l = true) : v ∉ SkipList.eraseFirst v l := by
  induction l with
  | nil => simp [SkipList.eraseFirst]
  | cons x t ih =>
    unfold SkipList.eraseFirst
    by_cases hx : x = v
    · rw [if_pos hx]
      intro hv
      exact lt_irrefl v (sortedLt_head_lt (hx ▸ hs) hv)
    · rw [if_neg hx]
      intro hv
      rcases List.mem_cons.mp hv with h1 | h2
      · exact hx h1.symm
      · exact ih (sortedLt_tail hs) h2

theorem eraseLevels_append {α : Type} [LinearOrder α] (v : α)
    (A : List (List α)) (b : List α) (C : List (List α)) :
    SkipList.eraseLevels v (A.length + 1) (A ++ b :: C) =
      A.map (SkipList.eraseFirst v) ++ SkipList.eraseFirst v b :: C := by
  induction A with
  | nil => rfl
  | cons a A' ih =>
    show SkipList.eraseFirst v a :: SkipList.eraseLevels v (A'.length + 1) (A' ++ b :: C) = _
    rw [ih]; rfl

theorem trimLoop_ne_nil {α : Type} {ls : List (List α)} (h : ls ≠ []) :
    SkipList.trimLoop ls ≠ [] := by
  induction ls with
  | nil => exact absurd rfl h
  | cons l rest ih =>
    cases rest with
    | nil => simp [SkipList.trimLoop]
    | cons l2 rest' =>
      unfold SkipList.trimLoop
      by_cases he : l.isEmpty
      · rw [if_pos he]; exact ih (by simp)
      · rw [if_neg he]; simp

theorem trimLoop_getLast? {α : Type} (ls : List (List α)) :
    (SkipList.trimLoop ls).getLast? = ls.getLast? := by
  induction ls with
  | nil => rfl
  | cons l rest ih =>
    cases rest with
    | nil => rfl
    | cons l2 rest' =>
      unfold SkipList.trimLoop
      by_cases he : l.isEmpty
      · rw [if_pos he, ih, List.getLast?_cons_cons]
      · rw [if_neg he]

theorem trimLoop_length_or_head {α : Type} (ls : List (List α)) :
    (SkipList.trimLoop ls).length ≤ 1 ∨ (SkipList.trimLoop ls).head? ≠ some [] := by
  induction ls with
  | nil => left; simp [SkipList.trimLoop]
  | cons l rest ih =>
    cases rest with
    | nil => left; simp [SkipList.trimLoop]
    | cons l2 rest' =>
      unfold SkipList.trimLoop
      by_cases he : l.isEmpty
      · rw [if_pos he]; exact ih
      · rw [if_neg he]
        right
        simp only [List.head?_cons, ne_eq, Option.some.injEq]
        intro hl
        rw [hl] at he
        exact he rfl

theorem trimLoop_subset {α : Type} {ls : List (List α)} :
    ∀ x ∈ SkipList.trimLoop ls, x ∈ ls := by
  induction ls with
  | nil => intro x hx; exact hx
  | cons l rest ih =>
    cases rest with
    | nil => intro x hx; exact hx
    | cons l2 rest' =>
      unfold SkipList.trimLoop
      by_cases he : l.isEmpty
      · rw [if_pos he]
        intro x hx
        exact List.mem_cons_of_mem l (ih x hx)
      · rw [if_neg he]
        intro x hx; exact hx

theorem trimEmptyLevels_head? {α : Type} (ls : List (List α)) :
    (SkipList.trimEmptyLevels ls).head? = ls.head? := by
  unfold SkipList.trimEmptyLevels
  rw [List.head?_reverse, trimLoop_getLast?, List.getLast?_reverse]

theorem trimEmptyLevels_ne_nil {α : Type} {ls : List (List α)} (h : ls ≠ []) :
    SkipList.trimEmptyLevels ls ≠ [] := by
  unfold SkipList.trimEmptyLevels
  intro hc
  have := trimLoop_ne_nil (show ls.reverse ≠ [] by simpa using h)
  rw [← List.reverse_reverse (SkipList.trimLoop ls.reverse), hc] at this
  exact this rfl

theorem trimEmptyLevels_trimmed {α : Type} {ls : List (List α)} (h : ls ≠ []) :
    (SkipList.trimEmptyLevels ls).length = 1 ∨
      (SkipList.trimEmptyLevels ls).getLast? ≠ some [] := by
  unfold SkipList.trimEmptyLevels
  rcases trimLoop_length_or_head ls.reverse with h1 | h2
  · left
    have hne := trimLoop_ne_nil (show ls.reverse ≠ [] by simpa using h)
    have : (SkipList.trimLoop ls.reverse).length ≠ 0 := by
      intro hz; exact hne (List.length_eq_zero.mp hz)
    simp only [List.length_reverse]
    omega
  · right
    rw [List.getLast?_reverse]
    exact h2

theorem trimEmptyLevels_subset {α : Type} {ls : List (List α)} :
    ∀ x ∈ SkipList.trimEmptyLevels ls, x ∈ ls := by
  intro x hx
  unfold SkipList.trimEmptyLevels at hx
  rw [List.mem_reverse] at hx
  have := trimLoop_subset x hx
  rwa [List.mem_reverse] at this

theorem dropWhile_head?_eq_find? {α : Type} (p : α → Bool) (l : List α) :
    (l.dropWhile p).head? = l.find? (fun x => !(p x)) :=
  (List.find?_not_eq_head?_dropWhile p l).symm

theorem insertLevel_length {α : Type} [LinearOrder α] (v : α) (l : List α) :
    (SkipList.insertLevel v l).length = l.length + 1 := by
  unfold SkipList.insertLevel
  have h := congrArg List.length
    (List.takeWhile_append_dropWhile (p := fun x => decide (x < v)) (l := l))
  simp only [List.length_append] at h
  simp only [List.length_append, List.length_cons]
  omega

theorem findNode_some_decomp {α : Type} [LinearOrder α] {v x : α} {i : Nat}
    {s : SkipList α} (h : SkipList.findNode v s = some (i, x)) :
    ∃ A lvl B, s.levels = A ++ lvl :: B ∧ A.length = i ∧
      SkipList.checkLevel v lvl = some x ∧
      ∀ l' ∈ B, SkipList.checkLevel v l' = none := by
  obtain ⟨pre, lvl, suf, hls, hlen, hck, hpre⟩ := findFrom_some_decomp h
  refine ⟨suf.reverse, lvl, pre.reverse, ?_, ?_, hck, ?_⟩
  · have h2 : s.levels = s.levels.reverse.reverse := (List.reverse_reverse _).symm
    rw [h2, hls]
    simp [List.reverse_append]
  · rw [List.length_reverse]
    exact hlen
  · intro l' hl'
    exact hpre l' (List.mem_reverse.mp hl')

theorem contains_iff_mem {α : Type} [LinearOrder α] {v : α} {s : SkipList α}
    (h : SkipList.WF s) : SkipList.contains v s = true ↔ v ∈ SkipList.toList s := by
  obtain ⟨hne, hsort, hdown, hsz⟩ := h
  constructor
  · intro hc
    unfold SkipList.contains at hc
    cases heq : SkipList.findNode v s with
    | none => rw [heq] at hc; exact absurd hc (by simp)
    | some p =>
      obtain ⟨i, x⟩ := p
      obtain ⟨A, lvl, B, hls, hlen, hck, _⟩ := findNode_some_decomp heq
      obtain ⟨hxv, hxl⟩ := checkLevel_some hck
      have hvl : v ∈ lvl := hxv ▸ hxl
      have hvi : v ∈ s.levels.getD i [] := by
        rw [hls, ← hlen]
        rw [getD_append_cons]
        exact hvl
      exact downClosed_to_bottom hdown hvi 0 (Nat.zero_le i)
  · intro hm
    by_contra hc
    have hnone : SkipList.findNode v s = none := by
      unfold SkipList.contains at hc
      exact Option.not_isSome_iff_eq_none.mp (by simpa using hc)
    cases hlev : s.levels with
    | nil => exact hne hlev
    | cons l0 rest =>
      have hl0mem : l0 ∈ s.levels.reverse := by
        rw [List.mem_reverse, hlev]; exact List.mem_cons_self l0 rest
      have hnone2 := findFrom_none hnone l0 hl0mem
      have hsl0 : SkipList.sortedLt l0 = true := by
        apply hsort; rw [hlev]; exact List.mem_cons_self l0 rest
      have hv0 : v ∈ l0 := by
        unfold SkipList.toList at hm
        rw [hlev] at hm
        exact hm
      rw [checkLevel_mem hsl0 hv0] at hnone2
      exact absurd hnone2 (by simp)

theorem insert_state_shape {α : Type} [LinearOrder α] {v : α} {L : Nat}
    {s : SkipList α} (h : SkipList.contains v s = false) (hL : 1 ≤ L)
    (hne : s.levels ≠ []) :
    (SkipList.insert v L s).1.levels ≠ [] ∧
    (SkipList.insert v L s).1.levels.getD 0 [] =
      SkipList.insertLevel v (s.levels.getD 0 []) ∧
    (SkipList.insert v L s).1.msize = s.msize + 1 := by
  cases hlev : s.levels with
  | nil => exact absurd hlev hne
  | cons l0 rest =>
    obtain ⟨k, rfl⟩ : ∃ k, L = k + 1 := ⟨L - 1, by omega⟩
    unfold SkipList.insert
    rw [if_neg (by simp [h])]
    by_cases hlen : s.levels.length < k + 1
    · rw [if_pos hlen, hlev]
      simp only [List.cons_append]
      refine ⟨?_, ?_, by trivial⟩
      · simp [SkipList.spliceLevels]
      · simp [SkipList.spliceLevels]
    · rw [if_neg hlen, hlev]
      refine ⟨?_, ?_, by trivial⟩
      · simp [SkipList.spliceLevels]
      · simp [SkipList.spliceLevels]

theorem erase_some_inv {α : Type} [LinearOrder α] {v : α} {b : Bool}
    {s s' : SkipList α} (h : SkipList.erase v s = some (b, s')) :
    (b = false ∧ s' = s ∧ SkipList.findNode v s = none) ∨
    (∃ i x, SkipList.findNode v s = some (i, x) ∧
      SkipList.towerIntact v (i + 1) s.levels = true ∧ b = true ∧
      s' = ⟨SkipList.trimEmptyLevels (SkipList.eraseLevels v (i + 1) s.levels),
        s.msize - 1, s.maxLvl⟩) := by
  unfold SkipList.erase at h
  split at h
  next hfind =>
    rw [Option.some.injEq, Prod.mk.injEq] at h
    exact Or.inl ⟨h.1.symm, h.2.symm, hfind⟩
  next i x hfind =>
    split at h
    next hti =>
      rw [Option.some.injEq, Prod.mk.injEq] at h
      exact Or.inr ⟨i, x, hfind, hti, h.1.symm, h.2.symm⟩
    next hti => exact absurd h (by simp)

theorem eraseIter_ok_inv {α : Type} [LinearOrder α] {pos nxt : IterM}
    {s s' : SkipList α} (h : SkipList.eraseIter pos s = Except.ok (nxt, s')) :
    ∃ i, pos = IterM.node i ∧ i < (s.levels.getD 0 []).length ∧
      s' = ⟨SkipList.trimEmptyLevels
        (SkipList.replaceBottom ((s.levels.getD 0 []).eraseIdx i) s.levels),
        s.msize - 1, s.maxLvl⟩ := by
  cases pos with
  | endIt => exact absurd h (by simp [SkipList.eraseIter])
  | dead => exact absurd h (by simp [SkipList.eraseIter, SkipList.validate_iterator])
  | node i =>
    unfold SkipList.eraseIter at h
    rw [if_neg (by simp)] at h
    by_cases hv : SkipList.validate_iterator (IterM.node i) s = false
    · rw [if_pos hv] at h
      exact absurd h (by simp)
    · rw [if_neg hv] at h
      have hlt : i < (s.levels.getD 0 []).length := by
        unfold SkipList.validate_iterator at hv
        simpa using hv
      simp only [Except.ok.injEq, Prod.mk.injEq] at h
      exact ⟨i, rfl, hlt, h.2.symm⟩

theorem replaceBottom_shape {α : Type} {b : List α} {ls : List (List α)}
    (h : ls ≠ []) : SkipList.replaceBottom b ls ≠ [] ∧
      (SkipList.replaceBottom b ls).getD 0 [] = b := by
  cases ls with
  | nil => exact absurd rfl h
  | cons l rest => exact ⟨by simp [SkipList.replaceBottom], rfl⟩

theorem reachable_size_inv {α : Type} [LinearOrder α] {s : SkipList α}
    (h : ReachableSkip s) :
    s.levels ≠ [] ∧ s.msize = (s.levels.getD 0 []).length := by
  induction h with
  | init => exact ⟨by simp [emptySkipList], rfl⟩
  | insertStep s v L hr h1 hmax ih =>
    by_cases hc : SkipList.contains v s = true
    · simpa [SkipList.insert, hc] using ih
    · obtain ⟨hne, hbot, hsz⟩ :=
        insert_state_shape (by simpa using hc) h1 ih.1
      refine ⟨hne, ?_⟩
      rw [hsz, hbot, insertLevel_length, ih.2]
  | eraseStep s s' v b hr heq ih =>
    rcases erase_some_inv heq with ⟨_, rfl, _⟩ | ⟨i, x, hfind, hti, _, rfl⟩
    · exact ih
    · obtain ⟨l0, rest, hlev⟩ : ∃ l0 rest, s.levels = l0 :: rest := by
        cases hl : s.levels with
        | nil => exact absurd hl ih.1
        | cons a b2 => exact ⟨a, b2, rfl⟩
      have hvl0 : v ∈ l0 := by
        have hti2 := hti
        rw [hlev] at hti2
        exact (towerIntact_head hti2).1
      have hbot : (SkipList.eraseLevels v (i + 1) s.levels).head? =
          some (SkipList.eraseFirst v l0) := by
        rw [hlev]; rfl
      constructor
      · apply trimEmptyLevels_ne_nil
        rw [hlev]
        simp [SkipList.eraseLevels]
      · show s.msize - 1 = _
        rw [getD_zero_eq_head, trimEmptyLevels_head?, hbot]
        simp only [Option.getD_some]
        have hlen := eraseFirst_length hvl0
        have hsz2 : s.msize = l0.length := by
          rw [ih.2, hlev]; rfl
        omega
  | eraseIterStep s s' pos nxt hr heq ih =>
    obtain ⟨i, hpos, hlt, rfl⟩ := eraseIter_ok_inv heq
    have hrb := replaceBottom_shape (b := (s.levels.getD 0 []).eraseIdx i) ih.1
    constructor
    · exact trimEmptyLevels_ne_nil hrb.1
    · show s.msize - 1 = _
      rw [getD_zero_eq_head, trimEmptyLevels_head?, ← getD_zero_eq_head, hrb.2]
      have hlen := List.length_eraseIdx_add_one hlt
      omega

/-! Claim theorems. -/

/-- C5: the claim states that clear() terminates and resets the container.
In the source the outer loop of clear never reassigns current_level (the
destructor's step current_level = current_level->down is missing), so for
every heap and every head address the loop runs forever: no amount of
fuel makes clearRun return, and the resets of head, tail,
current_max_level and _size after the loop are never reached. -/
theorem clear_never_terminates :
    ∀ (fuel : Nat) (h : HeapH) (headA : Nat), clearRun fuel h headA = none :=
  fun fuel h headA => clearOuter_some_eq_none fuel h headA

/-- C6: the claim states that erase(begin(), end()) is equivalent to
clear().  On the default-constructed container the range does span the
whole container, so the overload calls clear(), which never terminates
(see clear_never_terminates); the call never returns, never yields the
reset state, and on containers with elements would afterwards run the
erase loop on iterators invalidated by clear. -/
theorem erase_full_range_never_terminates :
    ∀ fuel : Nat,
      eraseRangeH fuel ctorHeap 0 1 (beginH ctorHeap 0) (endH ctorHeap 1) = none := by
  intro fuel
  unfold eraseRangeH
  rw [if_pos ⟨rfl, rfl⟩]
  rw [clearOuter_some_eq_none]

/-- C7: the claim states that insert is atomic under allocation failure.
Inserting 10 with drawn level 2 into the empty container when only three
allocations succeed (the two sentinels of the new level 2 and the level-1
tower node) throws on the fourth allocation, leaving the level-1 node of
10 spliced and visible: the levels at the throw are [[10], []], so the
iteration sequence already shows 10 while _size is still 0 — a partially
linked tower remains and no rollback happens. -/
theorem insert_alloc_partial_splice :
    insertAlloc 3 (10 : Int) 2 (emptySkipList Int) = Except.error ([[10], []], 0) ∧
    ([[10], []] : List (List Int)).getD 0 [] = [10] ∧
    (emptySkipList Int).levels.getD 0 [] = [] :=
  ⟨rfl, rfl, rfl⟩

/-- C9: the claim states that level generation is per-container, so one
container's operations cannot affect another's drawn levels.  random_level
reads the function-local static generator shared by all instances, here
the shared stream g with its shared cursor.  With g producing
true, false, false, ... a fresh container B inserting 7 first draws level
2 (its ladder grows to two levels); if a distinct container A runs its
insert first, consuming two outcomes, the same insert into B draws level
1 instead: A's operation changed B's level-generation state. -/
theorem random_level_shared_state :
    ((insertShared (7 : Int) (emptySkipList Int) (fun n => decide (n = 0)) 0).1.levels.length = 2) ∧
    ((insertShared (7 : Int) (emptySkipList Int) (fun n => decide (n = 0))
        (insertShared (5 : Int) (emptySkipList Int) (fun n => decide (n = 0)) 0).2).1.levels.length = 1) :=
  ⟨rfl, rfl⟩

/-- C1: the claim states that after any insert/erase sequence the
iteration yields exactly the inserted-and-not-erased values.  Counter-run:
insert 10 drawing level 2 builds a two-node tower; erase(begin()) runs
eraseNode on the level-1 node, whose down pointer is null, so only the
level-1 node is detached and the level-2 node of 10 survives; the second
insert(10) then finds the orphan (contains is still true) and returns
inserted = false without splicing.  The iteration sequence ends empty
although 10 was inserted last and never erased afterwards — the claim
expects it to be [10]. -/
theorem erase_iterator_orphans_tower :
    SkipList.insert (10 : Int) 2 (emptySkipList Int) =
      (⟨[[10], [10]], 1, 16⟩, some (0, 10), true) ∧
    SkipList.eraseIter (IterM.node 0) (⟨[[10], [10]], 1, 16⟩ : SkipList Int) =
      Except.ok (IterM.endIt, ⟨[[], [10]], 0, 16⟩) ∧
    SkipList.insert (10 : Int) 1 (⟨[[], [10]], 0, 16⟩ : SkipList Int) =
      (⟨[[], [10]], 0, 16⟩, some (1, 10), false) ∧
    SkipList.toList (⟨[[], [10]], 0, 16⟩ : SkipList Int) = [] ∧
    SkipList.contains (10 : Int) (⟨[[], [10]], 0, 16⟩ : SkipList Int) = true :=
  ⟨by decide, rfl, by decide, rfl, rfl⟩

/-- C8 counterexample: the claim states that erasing end() fails with an
invalid-argument condition.  The source throws std::out_of_range for
end() (std::invalid_argument is reserved for iterators failing
validate_iterator), so on the empty container erase(end()) reports
out-of-range, a different condition. -/
theorem erase_end_is_out_of_range :
    SkipList.eraseIter IterM.endIt (emptySkipList Int) =
      Except.error ErrK.outOfRange ∧
    ErrK.outOfRange ≠ ErrK.invalidArgument :=
  ⟨rfl, by decide⟩

/-- C8 amended: erasing through an iterator that does not denote a
currently-live element fails before any mutation, with out-of-range when
the iterator is end() and invalid-argument otherwise. -/
theorem erase_invalid_iterator_fails {α : Type} [LinearOrder α]
    (s : SkipList α) (pos : IterM)
    (h : SkipList.validate_iterator pos s = false) :
    (pos = IterM.endIt ∧
      SkipList.eraseIter pos s = Except.error ErrK.outOfRange) ∨
    (pos ≠ IterM.endIt ∧
      SkipList.eraseIter pos s = Except.error ErrK.invalidArgument) := by
  cases pos with
  | endIt =>
    left
    exact ⟨rfl, by unfold SkipList.eraseIter; rw [if_pos rfl]⟩
  | dead =>
    right
    refine ⟨by simp, ?_⟩
    unfold SkipList.eraseIter
    rw [if_neg (by simp), if_pos h]
  | node i =>
    right
    refine ⟨by simp, ?_⟩
    unfold SkipList.eraseIter
    rw [if_neg (by simp), if_pos h]

/-- Witness for erase_invalid_iterator_fails at a dangling iterator on
the empty container. -/
theorem erase_invalid_iterator_fails_witness :
    SkipList.validate_iterator IterM.dead (emptySkipList Int) = false ∧
    ((IterM.dead = IterM.endIt ∧
        SkipList.eraseIter IterM.dead (emptySkipList Int) =
          Except.error ErrK.outOfRange) ∨
      (IterM.dead ≠ IterM.endIt ∧
        SkipList.eraseIter IterM.dead (emptySkipList Int) =
          Except.error ErrK.invalidArgument)) :=
  ⟨rfl, erase_invalid_iterator_fails (emptySkipList Int) IterM.dead rfl⟩

/-- C3: the claim states that inserting an already-present value returns
the existing location with inserted = false and mutates nothing.  The
source checks contains first and returns the pair (iterator to the node
findNode locates, false) before touching the structure, so the state,
size() and the iteration sequence are unchanged and the returned node
holds the value itself. -/
theorem insert_duplicate_noop {α : Type} [LinearOrder α]
    (s : SkipList α) (v : α) (L : Nat)
    (h : SkipList.contains v s = true) :
    SkipList.insert v L s = (s, SkipList.findNode v s, false) ∧
    (∃ lv, SkipList.findNode v s = some (lv, v)) ∧
    SkipList.size (SkipList.insert v L s).1 = SkipList.size s ∧
    SkipList.toList (SkipList.insert v L s).1 = SkipList.toList s := by
  have h1 : SkipList.insert v L s = (s, SkipList.findNode v s, false) := by
    unfold SkipList.insert
    rw [if_pos h]
  refine ⟨h1, ?_, by rw [h1], by rw [h1]⟩
  unfold SkipList.contains at h
  cases heq : SkipList.findNode v s with
  | none => rw [heq] at h; exact absurd h (by simp)
  | some p =>
    obtain ⟨i, x⟩ := p
    obtain ⟨A, lvl, B, _, _, hck, _⟩ := findNode_some_decomp heq
    have hx := (checkLevel_some hck).1
    exact ⟨i, by rw [hx]⟩

/-- Witness for insert_duplicate_noop: re-inserting 5 into the singleton
container. -/
theorem insert_duplicate_noop_witness :
    SkipList.contains (5 : Int) ⟨[[5]], 1, 16⟩ = true ∧
    (SkipList.insert (5 : Int) 3 ⟨[[5]], 1, 16⟩ =
        (⟨[[5]], 1, 16⟩, SkipList.findNode (5 : Int) ⟨[[5]], 1, 16⟩, false) ∧
      (∃ lv, SkipList.findNode (5 : Int) ⟨[[5]], 1, 16⟩ = some (lv, 5)) ∧
      SkipList.size (SkipList.insert (5 : Int) 3 ⟨[[5]], 1, 16⟩).1 =
        SkipList.size (⟨[[5]], 1, 16⟩ : SkipList Int) ∧
      SkipList.toList (SkipList.insert (5 : Int) 3 ⟨[[5]], 1, 16⟩).1 =
        SkipList.toList (⟨[[5]], 1, 16⟩ : SkipList Int)) :=
  ⟨by decide, insert_duplicate_noop _ _ 3 (by decide)⟩

/-- C10: the claim states that empty() agrees with size() == 0 on every
reachable container.  Along every run of the returning mutators the _size
member stays equal to the number of level-1 nodes (insert splices exactly
one node into level 1 and increments _size; both erasers remove exactly
one level-1 node and decrement it), so the structural test of empty()
and the counter test of size() coincide. -/
theorem empty_agrees_with_size {α : Type} [LinearOrder α] {s : SkipList α}
    (h : ReachableSkip s) :
    SkipList.emptyB s = true ↔ SkipList.size s = 0 := by
  obtain ⟨hne, hsz⟩ := reachable_size_inv h
  unfold SkipList.emptyB SkipList.size
  rw [hsz]
  simp [List.isEmpty_iff, List.length_eq_zero]

/-- Witness for empty_agrees_with_size at the freshly constructed
container. -/
theorem empty_agrees_with_size_witness :
    ReachableSkip (emptySkipList Int) ∧
    (SkipList.emptyB (emptySkipList Int) = true ↔
      SkipList.size (emptySkipList Int) = 0) :=
  ⟨ReachableSkip.init, empty_agrees_with_size ReachableSkip.init⟩

theorem lbDescend_eq_bottom {α : Type} [LinearOrder α] (k : α) :
    ∀ ls : List (List α), SkipList.lbDescend k ls =
      (ls.getLast?.getD []).dropWhile (fun x => x < k) := by
  intro ls
  induction ls with
  | nil => rfl
  | cons l rest ih =>
    cases rest with
    | nil => rfl
    | cons l2 rest' =>
      show SkipList.lbDescend k (l2 :: rest') = _
      rw [ih, List.getLast?_cons_cons]

theorem lower_bound_eq_dropWhile {α : Type} [LinearOrder α] (k : α)
    (s : SkipList α) : SkipList.lower_bound k s =
      (SkipList.toList s).dropWhile (fun x => x < k) := by
  unfold SkipList.lower_bound SkipList.toList
  rw [lbDescend_eq_bottom, List.getLast?_reverse, getD_zero_eq_head]

theorem find?_append_of_none {α : Type} (p : α → Bool) (l1 l2 : List α)
    (h : ∀ x ∈ l1, p x = false) :
    (l1 ++ l2).find? p = l2.find? p := by
  induction l1 with
  | nil => rfl
  | cons a t ih =>
    rw [List.cons_append, List.find?_cons_of_neg _ (by simp [h a (by simp)])]
    exact ih (fun x hx => h x (List.mem_cons_of_mem a hx))

theorem sortedLt_dropWhile {α : Type} [LinearOrder α] (p : α → Bool)
    {l : List α} (hs : SkipList.sortedLt l = true) :
    SkipList.sortedLt (l.dropWhile p) = true := by
  induction l with
  | nil => rfl
  | cons a t ih =>
    by_cases hp : p a = true
    · rw [List.dropWhile_cons_of_pos hp]
      exact ih (sortedLt_tail hs)
    · rw [List.dropWhile_cons_of_neg hp]
      exact hs

/-- C2: the claim states that lower_bound returns the first element not
less than the key, upper_bound the first element strictly greater, and
both end() when no such element exists.  On a container whose iteration
sequence is strictly ordered (spec section 3 invariant 1), the descent of
lower_bound lands on the first level-1 node not preceding the key and
upper_bound advances exactly over an equal element, so their results are
the find-first formulations of the specification, and the empty suffix
(end()) appears exactly when no element qualifies. -/
theorem lower_upper_bound_spec {α : Type} [LinearOrder α] (s : SkipList α)
    (k : α) (hs : SkipList.sortedLt (SkipList.toList s) = true) :
    (SkipList.lower_bound k s).head? = SkipList.specLowerBound k (SkipList.toList s) ∧
    (SkipList.upper_bound k s).head? = SkipList.specUpperBound k (SkipList.toList s) ∧
    (SkipList.lower_bound k s = [] ↔ ∀ x ∈ SkipList.toList s, x < k) ∧
    (SkipList.upper_bound k s = [] ↔ ∀ x ∈ SkipList.toList s, ¬ k < x) := by
  have hfun : (fun x : α => !(decide (x < k))) = (fun x => decide (k ≤ x)) := by
    funext x
    rw [← decide_not]
    exact decide_eq_decide.mpr not_lt
  have hlb : (SkipList.lower_bound k s).head? =
      SkipList.specLowerBound k (SkipList.toList s) := by
    rw [lower_bound_eq_dropWhile]
    unfold SkipList.specLowerBound
    rw [dropWhile_head?_eq_find?, hfun]
  have hub_nil : SkipList.lower_bound k s = [] → SkipList.upper_bound k s = [] := by
    intro h
    unfold SkipList.upper_bound
    rw [h]
  have hub_cons : ∀ x t, SkipList.lower_bound k s = x :: t →
      SkipList.upper_bound k s = if ¬ k < x then t else x :: t := by
    intro x t h
    unfold SkipList.upper_bound
    rw [h]
  have hub : (SkipList.upper_bound k s).head? =
      SkipList.specUpperBound k (SkipList.toList s) := by
    unfold SkipList.specUpperBound
    have hsplit :
        (SkipList.toList s).takeWhile (fun x => decide (x < k)) ++
          (SkipList.toList s).dropWhile (fun x => decide (x < k)) =
        SkipList.toList s := List.takeWhile_append_dropWhile _ _
    have htake : ∀ x ∈ (SkipList.toList s).takeWhile (fun x => decide (x < k)),
        decide (k < x) = false := by
      intro x hx
      have hxk : x < k := by simpa using List.mem_takeWhile_imp hx
      simp [lt_asymm hxk]
    have hfind : (SkipList.toList s).find? (fun x => decide (k < x)) =
        ((SkipList.toList s).dropWhile (fun x => decide (x < k))).find?
          (fun x => decide (k < x)) := by
      conv_lhs => rw [← hsplit]
      exact find?_append_of_none _ _ _ htake
    rw [hfind]
    cases hrest : (SkipList.toList s).dropWhile (fun x => decide (x < k)) with
    | nil =>
      rw [hub_nil (by rw [lower_bound_eq_dropWhile]; exact hrest)]
      rfl
    | cons x t =>
      have hxnotlt : ¬ x < k := by
        have h1 : ((SkipList.toList s).dropWhile (fun x => decide (x < k))).head? = some x := by
          rw [hrest]; rfl
        rw [dropWhile_head?_eq_find?] at h1
        have := List.find?_some h1
        simpa using this
      rw [hub_cons x t (by rw [lower_bound_eq_dropWhile]; exact hrest)]
      by_cases hkx : k < x
      · rw [if_neg (not_not_intro hkx)]
        rw [List.find?_cons_of_pos _ (by simpa using hkx)]
        rfl
      · rw [if_pos hkx]
        rw [List.find?_cons_of_neg _ (by simpa using hkx)]
        have hxk : x = k := le_antisymm (not_lt.mp hkx) (not_lt.mp hxnotlt)
        have hsrest : SkipList.sortedLt (x :: t) = true := by
          rw [← hrest]
          exact sortedLt_dropWhile _ hs
        cases t with
        | nil => simp
        | cons y t' =>
          have hxy : x < y := sortedLt_head_lt hsrest (List.mem_cons_self y t')
          rw [List.find?_cons_of_pos _ (by simp [hxk ▸ hxy])]
          rfl
  refine ⟨hlb, hub, ?_, ?_⟩
  · rw [lower_bound_eq_dropWhile]
    rw [List.dropWhile_eq_nil_iff]
    constructor
    · intro hall x hx; simpa using hall x hx
    · intro hall x hx; simpa using hall x hx
  · constructor
    · intro hnil
      have : SkipList.specUpperBound k (SkipList.toList s) = none := by
        rw [← hub, hnil]; rfl
      unfold SkipList.specUpperBound at this
      rw [List.find?_eq_none] at this
      intro x hx
      simpa using this x hx
    · intro hall
      have hnone : SkipList.specUpperBound k (SkipList.toList s) = none := by
        unfold SkipList.specUpperBound
        rw [List.find?_eq_none]
        intro x hx
        simpa using hall x hx
      have := hub.trans hnone
      exact List.head?_eq_none_iff.mp this

/-- Witness for lower_upper_bound_spec: the three-element container
30, 36, 40 (with a level-2 node for 36) queried at key 35. -/
theorem lower_upper_bound_spec_witness :
    SkipList.sortedLt (SkipList.toList (⟨[[30, 36, 40], [36]], 3, 16⟩ : SkipList Int)) = true ∧
    ((SkipList.lower_bound (35 : Int) ⟨[[30, 36, 40], [36]], 3, 16⟩).head? =
        SkipList.specLowerBound 35 (SkipList.toList (⟨[[30, 36, 40], [36]], 3, 16⟩ : SkipList Int)) ∧
      (SkipList.upper_bound (35 : Int) ⟨[[30, 36, 40], [36]], 3, 16⟩).head? =
        SkipList.specUpperBound 35 (SkipList.toList (⟨[[30, 36, 40], [36]], 3, 16⟩ : SkipList Int)) ∧
      (SkipList.lower_bound (35 : Int) ⟨[[30, 36, 40], [36]], 3, 16⟩ = [] ↔
        ∀ x ∈ SkipList.toList (⟨[[30, 36, 40], [36]], 3, 16⟩ : SkipList Int), x < 35) ∧
      (SkipList.upper_bound (35 : Int) ⟨[[30, 36, 40], [36]], 3, 16⟩ = [] ↔
        ∀ x ∈ SkipList.toList (⟨[[30, 36, 40], [36]], 3, 16⟩ : SkipList Int), ¬ (35 : Int) < x)) :=
  ⟨by decide, lower_upper_bound_spec _ 35 (by decide)⟩

theorem erase_eq_of_found {α : Type} [LinearOrder α] {v x : α} {i : Nat}
    {s : SkipList α} (h1 : SkipList.findNode v s = some (i, x))
    (h2 : SkipList.towerIntact v (i + 1) s.levels = true) :
    SkipList.erase v s = some (true,
      ⟨SkipList.trimEmptyLevels (SkipList.eraseLevels v (i + 1) s.levels),
        s.msize - 1, s.maxLvl⟩) := by
  unfold SkipList.erase
  simp only [h1]
  rw [if_pos h2]

theorem erase_eq_of_not_found {α : Type} [LinearOrder α] {v : α}
    {s : SkipList α} (h1 : SkipList.findNode v s = none) :
    SkipList.erase v s = some (false, s) := by
  unfold SkipList.erase
  simp only [h1]

/-- C4: the claim states that erase(v) succeeds exactly on present
values, detaches the tower at every level, decrements size by one and
trims empty top levels, and leaves an absent-value container unchanged.
On a container satisfying the structural invariants, findNode locates the
topmost node of the value's tower, the down-chain walk of eraseNode
detaches one node at each level from there to level 1 (afterwards no
level holds the value), _size drops by exactly one, the iteration
sequence loses exactly the erased element, and after trimming either only
level 1 remains or the top level is nonempty; when the value is absent,
erase returns false with the state untouched. -/
theorem erase_value_spec {α : Type} [LinearOrder α] (s : SkipList α) (v : α)
    (h : SkipList.WF s) :
    (v ∈ SkipList.toList s →
      ∃ s', SkipList.erase v s = some (true, s') ∧
        SkipList.size s' + 1 = SkipList.size s ∧
        (∀ lvl ∈ s'.levels, v ∉ lvl) ∧
        SkipList.toList s' = SkipList.eraseFirst v (SkipList.toList s) ∧
        (s'.levels.length = 1 ∨ s'.levels.getLast? ≠ some [])) ∧
    (v ∉ SkipList.toList s → SkipList.erase v s = some (false, s)) := by
  obtain ⟨hne, hsort, hdown, hsz⟩ := h
  constructor
  · intro hmem
    have hc : SkipList.contains v s = true :=
      (contains_iff_mem ⟨hne, hsort, hdown, hsz⟩).mpr hmem
    obtain ⟨p, heq⟩ : ∃ p, SkipList.findNode v s = some p := by
      unfold SkipList.contains at hc
      exact Option.isSome_iff_exists.mp hc
    obtain ⟨i, x⟩ := p
    obtain ⟨A, lvl, B, hls, hlenA, hck, hBnone⟩ := findNode_some_decomp heq
    have hxv := (checkLevel_some hck).1
    have hvlvl : v ∈ lvl := hxv ▸ (checkLevel_some hck).2
    have hvi : v ∈ s.levels.getD i [] := by
      rw [hls, ← hlenA, getD_append_cons]
      exact hvlvl
    have hall : ∀ j, j ≤ i → v ∈ s.levels.getD j [] :=
      downClosed_to_bottom hdown hvi
    have hilen : i < s.levels.length := by
      rw [hls, ← hlenA]
      simp only [List.length_append, List.length_cons]
      omega
    have hti : SkipList.towerIntact v (i + 1) s.levels = true :=
      towerIntact_of_all i hilen hall
    obtain ⟨l0, rest, hlev⟩ : ∃ l0 rest, s.levels = l0 :: rest := by
      cases hl : s.levels with
      | nil => exact absurd hl hne
      | cons a b2 => exact ⟨a, b2, rfl⟩
    have hvl0 : v ∈ l0 := by
      have h0 := hall 0 (Nat.zero_le i)
      rw [hlev] at h0
      exact h0
    have hbot0 : SkipList.toList s = l0 := by
      unfold SkipList.toList
      rw [hlev]
      rfl
    refine ⟨⟨SkipList.trimEmptyLevels (SkipList.eraseLevels v (i + 1) s.levels),
      s.msize - 1, s.maxLvl⟩, erase_eq_of_found heq hti, ?_, ?_, ?_, ?_⟩
    · show s.msize - 1 + 1 = s.msize
      have hpos : 0 < (s.levels.getD 0 []).length := by
        rw [hlev]
        exact List.length_pos_of_mem hvl0
      omega
    · intro lv' hm
      have hm2 := trimEmptyLevels_subset lv' hm
      rw [hls, ← hlenA, eraseLevels_append] at hm2
      rcases List.mem_append.mp hm2 with hA | hBc
      · obtain ⟨a, ha, rfl⟩ := List.mem_map.mp hA
        exact eraseFirst_not_mem (hsort a (by rw [hls]; exact List.mem_append_left _ ha))
      · rcases List.mem_cons.mp hBc with h1 | h2
        · rw [h1]
          exact eraseFirst_not_mem (hsort lvl (by rw [hls]; simp))
        · exact checkLevel_not_mem (hsort lv' (by rw [hls]; simp [h2]))
            (hBnone lv' h2)
    · show SkipList.toList _ = _
      unfold SkipList.toList
      rw [getD_zero_eq_head, trimEmptyLevels_head?]
      have hhd : (SkipList.eraseLevels v (i + 1) s.levels).head? =
          some (SkipList.eraseFirst v l0) := by
        rw [hlev]
        rfl
      rw [hhd, hlev]
      rfl
    · apply trimEmptyLevels_trimmed
      rw [hlev]
      simp [SkipList.eraseLevels]
  · intro hnm
    have hc : SkipList.contains v s = false := by
      cases hcc : SkipList.contains v s with
      | false => rfl
      | true => exact absurd ((contains_iff_mem ⟨hne, hsort, hdown, hsz⟩).mp hcc) hnm
    have hnone : SkipList.findNode v s = none := by
      unfold SkipList.contains at hc
      exact Option.not_isSome_iff_eq_none.mp (by simp [hc])
    exact erase_eq_of_not_found hnone

/-- Witness for erase_value_spec: erasing 20 out of the container
10, 20, 30 whose 20-tower reaches level 2. -/
theorem erase_value_spec_witness :
    SkipList.WF (⟨[[10, 20, 30], [20]], 3, 16⟩ : SkipList Int) ∧
    (((20 : Int) ∈ SkipList.toList (⟨[[10, 20, 30], [20]], 3, 16⟩ : SkipList Int) →
      ∃ s', SkipList.erase (20 : Int) ⟨[[10, 20, 30], [20]], 3, 16⟩ = some (true, s') ∧
        SkipList.size s' + 1 = SkipList.size (⟨[[10, 20, 30], [20]], 3, 16⟩ : SkipList Int) ∧
        (∀ lvl ∈ s'.levels, (20 : Int) ∉ lvl) ∧
        SkipList.toList s' =
          SkipList.eraseFirst (20 : Int) (SkipList.toList (⟨[[10, 20, 30], [20]], 3, 16⟩ : SkipList Int)) ∧
        (s'.levels.length = 1 ∨ s'.levels.getLast? ≠ some [])) ∧
    ((20 : Int) ∉ SkipList.toList (⟨[[10, 20, 30], [20]], 3, 16⟩ : SkipList Int) →
      SkipList.erase (20 : Int) ⟨[[10, 20, 30], [20]], 3, 16⟩ =
        some (false, ⟨[[10, 20, 30], [20]], 3, 16⟩))) :=
  ⟨by decide, erase_value_spec _ 20 (by decide)⟩
